import Mathlib

/-!
Shallow embedding of the launchdarkly-rust-sdk-experimental core:
the versioned configuration store (src/store.rs), the stream-consumer
retry loop (src/consumer.rs) and the flag evaluator (src/evaluator.rs),
together with theorems settling the frozen claims about them.

Modelling conventions:
- Rust HashMap<String, V> is modelled as an association list
  (List (String × V)) with lookup, replace-insert and erase helpers;
  only lookup/insert/remove semantics are used by the source.
- Machine integers are modelled as Nat/Int; the two lossy casts the
  evaluator performs (usize → i64 and i64 → usize) are modelled
  explicitly with wrap-around at 2^64.
- f64 arithmetic in the rollout walk is modelled over Rat; the rollout
  claims are about the order of the walk and its comparisons, which the
  embedding keeps intact.
- The recursive prerequisite evaluation is not structurally recursive
  (it re-enters the store), so it is embedded with an explicit fuel
  parameter; fuel exhaustion is the value none.
-/

/-- Models serde_json::Value as far as the embedded code observes it:
variation values are carried around opaquely, never inspected, so the
array and object variants are elided. -/
inductive JsonValue where
  | null : JsonValue
  | bool (b : Bool) : JsonValue
  | num (q : Rat) : JsonValue
  | str (s : String) : JsonValue
deriving DecidableEq

/-- Modelled from the spec: generated OpenAPI model whose fields the
embedded core never reads; kept as an opaque record. -/
structure ClientSideAvailability where
  deriving DecidableEq

/-- Modelled from the spec: generated `prerequisite::Prerequisite`
model; the evaluator reads the optional flag key and the optional
required variation index (i64). -/
structure Prerequisite where
  key : Option String
  variation : Option Int
deriving DecidableEq

/-- Modelled from the spec: generated `target::Target` model; the
evaluator reads the optional user-key list and the optional variation
index (i64). -/
structure Target where
  values : Option (List String)
  variation : Option Int
deriving DecidableEq

/-- Modelled from the spec: generated `rule::Rule` model; the evaluator
only ever asks whether the rules list is empty, so the record is
opaque. -/
structure Rule where
  deriving DecidableEq

/-- Modelled from the spec: generated `weighted_variation::WeightedVariation`
model; an optional variation index (i64) and an optional weight
(u32, between 0 and 100000 in well-formed data). -/
structure WeightedVariation where
  variation : Option Int
  weight : Option Nat
deriving DecidableEq

/-- Modelled from the spec: generated `rollout::Rollout` model; an
optional ordered list of weighted variations. -/
structure Rollout where
  variations : Option (List WeightedVariation)
deriving DecidableEq

/-- Modelled from the spec: generated `fallthrough::Fallthrough` model;
an optional fixed variation index (i64) and an optional rollout. -/
structure Fallthrough where
  variation : Option Int
  rollout : Option Rollout
deriving DecidableEq

/-- FeatureFlagState from src/models.rs. -/
structure FeatureFlagState where
  client_side : Bool
  client_side_availability : ClientSideAvailability
  deleted : Bool
  fallthrough : Fallthrough
  key : String
  off_variation : Nat
  «on» : Bool
  prerequisites : List Prerequisite
  rules : List Rule
  salt : String
  targets : List Target
  track_events : Bool
  track_events_fallthrough : Bool
  variations : List JsonValue
  version : Nat
deriving DecidableEq

/-- Association-list model of HashMap lookup (`flags.get(&name)`). -/
def lookupKV {V : Type} : List (String × V) → String → Option V
  | [], _ => none
  | (k, v) :: rest, name => if k = name then some v else lookupKV rest name

/-- Association-list model of HashMap remove (`f.remove(&name)`). -/
def eraseKV {V : Type} : List (String × V) → String → List (String × V)
  | [], _ => []
  | (k, v) :: rest, name => if k = name then eraseKV rest name else (k, v) :: eraseKV rest name

/-- Association-list model of HashMap insert (`updated.insert(name, flag)`):
the new binding replaces any existing binding for the key. -/
def insertKV {V : Type} (l : List (String × V)) (name : String) (v : V) : List (String × V) :=
  (name, v) :: eraseKV l name

/-- InitData from src/message.rs: the payload of a Put message. -/
structure InitData where
  flags : List (String × FeatureFlagState)
deriving DecidableEq

/-- Update from src/message.rs: the payload of a Patch or Delete. -/
inductive Update where
  | Flag (name : String) (data : Option FeatureFlagState) (version : Option Nat) : Update
  | Unknown : Update
deriving DecidableEq

/-- Message from src/message.rs. -/
inductive Message where
  | Put (d : InitData) : Message
  | Patch (u : Update) : Message
  | Delete (u : Update) : Message
  | Unknown : Message
deriving DecidableEq

/-- InitState from src/consumer.rs. -/
inductive InitState where
  | Pending : InitState
  | Done : InitState
deriving DecidableEq

/-- MemoryStore from src/store.rs: the flag map plus the init bit.
The ArcSwap/AtomicBool wrappers are concurrency plumbing; the embedded
state is the map value they hold. -/
structure MemoryStore where
  flags : List (String × FeatureFlagState)
  init : Bool
deriving DecidableEq

/-- MemoryStore::new / Default::default: empty map, uninitialized. -/
def MemoryStore.new : MemoryStore :=
  { flags := [], init := false }

/-- Store::flag for MemoryStore. -/
def MemoryStore.flag (s : MemoryStore) (name : String) : Option FeatureFlagState :=
  lookupKV s.flags name

/-- MemoryStore::consume from src/store.rs, translated arm by arm.
Note the Patch arm's version test follows the source exactly: when an
entry exists and the incoming version is strictly greater, the source
returns early without modifying the map, and otherwise it inserts. -/
def MemoryStore.consume (s : MemoryStore) (msg : Message) : MemoryStore × InitState :=
  match msg with
  | .Put d => ({ flags := d.flags, init := true }, .Done)
  | .Patch (.Flag name (some flag) _) =>
    if s.init = false then (s, .Pending)
    else
      match lookupKV s.flags name with
      | some existing =>
        if existing.version < flag.version then (s, .Done)
        else ({ s with flags := insertKV s.flags name flag }, .Done)
      | none => ({ s with flags := insertKV s.flags name flag }, .Done)
  | .Delete (.Flag name _ (some version)) =>
    if s.init = false then (s, .Pending)
    else
      match lookupKV s.flags name with
      | some existing =>
        if existing.version < version then ({ s with flags := eraseKV s.flags name }, .Done)
        else (s, .Done)
      | none => (s, .Done)
  | _ => (s, .Done)

/-- A concrete flag record that differs only in its version, used to
exercise the store at specific inputs. -/
def flagV (v : Nat) : FeatureFlagState :=
  { client_side := false
    client_side_availability := {}
    deleted := false
    fallthrough := { variation := some 0, rollout := none }
    key := "k"
    off_variation := 0
    «on» := true
    prerequisites := []
    rules := []
    salt := "s"
    targets := []
    track_events := false
    track_events_fallthrough := false
    variations := []
    version := v }

/-- An initialized store holding the single flag "k" at version 1. -/
def storeK1 : MemoryStore :=
  { flags := [("k", flagV 1)], init := true }

theorem lookupKV_eraseKV_ne {V : Type} (l : List (String × V)) (name k : String)
    (h : k ≠ name) : lookupKV (eraseKV l name) k = lookupKV l k := by
  induction l with
  | nil => rfl
  | cons hd tl ih =>
    obtain ⟨k0, v0⟩ := hd
    by_cases hk : k0 = name
    · simp only [eraseKV, if_pos hk, lookupKV, ih]
      rw [if_neg (by simpa [hk] using (Ne.symm h))]
    · simp only [eraseKV, if_neg hk, lookupKV]
      by_cases hq : k0 = k
      · simp [hq]
      · simp [hq, ih]

theorem lookupKV_insertKV_ne {V : Type} (l : List (String × V)) (name k : String) (v : V)
    (h : k ≠ name) : lookupKV (insertKV l name v) k = lookupKV l k := by
  simp only [insertKV, lookupKV]
  rw [if_neg (Ne.symm h), lookupKV_eraseKV_ne l name k h]

/-- C1: the claim states that a Patch carrying a strictly newer version
replaces the stored state and a Patch carrying an older-or-equal
version is a no-op. The source performs the opposite comparison: at the
initialized store holding "k" at version 1, a Patch of "k" at version 2
is dropped (the map still holds version 1, the call returns Done), while
a Patch of "k" at stale version 0 overwrites the stored version-1 entry.
This closed theorem evaluates MemoryStore::consume at both inputs. -/
theorem consume_patch_version_inverted :
    MemoryStore.consume storeK1 (.Patch (.Flag "k" (some (flagV 2)) none)) = (storeK1, .Done)
    ∧ (flagV 1).version < (flagV 2).version
    ∧ lookupKV (MemoryStore.consume storeK1
        (.Patch (.Flag "k" (some (flagV 0)) none))).1.flags "k" = some (flagV 0)
    ∧ (flagV 0).version ≤ (flagV 1).version := by
  refine ⟨rfl, by decide, rfl, by decide⟩

/-- C5: on the freshly created store (no Put applied yet), any Patch
carrying flag data and any Delete carrying a version return Pending and
leave the store as created: empty map, uninitialized. -/
theorem consume_pre_init_pending (name : String) (flag : FeatureFlagState)
    (pv : Option Nat) (dd : Option FeatureFlagState) (ver : Nat) :
    MemoryStore.consume MemoryStore.new (.Patch (.Flag name (some flag) pv))
      = (MemoryStore.new, .Pending)
    ∧ MemoryStore.consume MemoryStore.new (.Delete (.Flag name dd (some ver)))
      = (MemoryStore.new, .Pending) :=
  ⟨rfl, rfl⟩

/-- C8: a Put replaces the whole stored map with the map it carries and
marks the store initialized, returning Done, for every prior store
state; consequently every key reads exactly as in the Put payload and
no other key survives. -/
theorem consume_put_replaces (s : MemoryStore) (d : InitData) :
    MemoryStore.consume s (.Put d) = ({ flags := d.flags, init := true }, .Done)
    ∧ ∀ k, lookupKV (MemoryStore.consume s (.Put d)).1.flags k = lookupKV d.flags k :=
  ⟨rfl, fun _ => rfl⟩

/-- C10: on an initialized store, a Patch for key name changes at most
the entry of name — every other key reads the same before and after,
and the store stays initialized — and a Delete for key name likewise
leaves every other key and the init bit unchanged. -/
theorem consume_patch_delete_frame (s : MemoryStore) (name : String)
    (flag : FeatureFlagState) (pv : Option Nat) (dd : Option FeatureFlagState) (ver : Nat)
    (k : String) (hinit : s.init = true) (hk : k ≠ name) :
    (lookupKV (MemoryStore.consume s (.Patch (.Flag name (some flag) pv))).1.flags k
        = lookupKV s.flags k
      ∧ (MemoryStore.consume s (.Patch (.Flag name (some flag) pv))).1.init = true)
    ∧ (lookupKV (MemoryStore.consume s (.Delete (.Flag name dd (some ver)))).1.flags k
        = lookupKV s.flags k
      ∧ (MemoryStore.consume s (.Delete (.Flag name dd (some ver)))).1.init = true) := by
  constructor
  · simp only [MemoryStore.consume, hinit]
    cases hl : lookupKV s.flags name with
    | none => simp [lookupKV_insertKV_ne s.flags name k flag hk, hinit]
    | some existing =>
      by_cases hv : existing.version < flag.version
      · simp [hv, hinit]
      · simp [hv, lookupKV_insertKV_ne s.flags name k flag hk, hinit]
  · simp only [MemoryStore.consume, hinit]
    cases hl : lookupKV s.flags name with
    | none => simp [hinit]
    | some existing =>
      by_cases hv : existing.version < ver
      · simp [hv, lookupKV_eraseKV_ne s.flags name k hk, hinit]
      · simp [hv, hinit]

/-- Witness for C10 at a concrete initialized store: the flag "k" is
patched and deleted while the unrelated key "b" is read. -/
theorem consume_patch_delete_frame_witness :
    (lookupKV (MemoryStore.consume storeK1 (.Patch (.Flag "k" (some (flagV 0)) none))).1.flags "b"
        = lookupKV storeK1.flags "b"
      ∧ (MemoryStore.consume storeK1 (.Patch (.Flag "k" (some (flagV 0)) none))).1.init = true)
    ∧ (lookupKV (MemoryStore.consume storeK1 (.Delete (.Flag "k" none (some 5)))).1.flags "b"
        = lookupKV storeK1.flags "b"
      ∧ (MemoryStore.consume storeK1 (.Delete (.Flag "k" none (some 5)))).1.init = true) :=
  consume_patch_delete_frame storeK1 "k" (flagV 0) none none 5 "b" rfl (by decide)

/-- Error from src/evaluator.rs. -/
inductive Error where
  | FlagNotFound : Error
  | FlagOff : Error
  | PrerequisiteFailed : Error
  | InvalidPrerequisite : Error
  | InvalidTarget : Error
  | InvalidRollout : Error
  | UnsupportedRules : Error
  | EmptyFallthrough : Error
  | IndexOutOfRange : Error
  | InvalidVariationType : Error
deriving DecidableEq

/-- Rust cast `as i64` applied to a usize value (wrap at 2^64). -/
def i64OfUsize (n : Nat) : Int :=
  if n < 2 ^ 63 then (n : Int) else (n : Int) - 2 ^ 64

/-- Rust cast `as usize` applied to an i64 value (wrap at 2^64). -/
def usizeOfI64 (v : Int) : Nat :=
  (v % (2 : Int) ^ 64).toNat

/-- Evaluation::targets from src/evaluator.rs: scan target entries in
declared order; a target missing its values or variation is
InvalidTarget; the first entry whose value list contains the user key
returns that entry's variation. -/
def Evaluation.targets (user : String) : List Target → Except Error (Option Int)
  | [] => .ok none
  | t :: rest =>
    match t.values, t.variation with
    | some values, some variation =>
      if values.contains user then .ok (some variation)
      else Evaluation.targets user rest
    | _, _ => .error .InvalidTarget

/-- Evaluation::rules from src/evaluator.rs: rule matching is
unsupported; any declared rule is an error. -/
def Evaluation.rules (flag : FeatureFlagState) : Except Error (Option Int) :=
  if flag.rules.isEmpty then .ok none else .error .UnsupportedRules

/-- The for-loop inside Evaluation::rollout: walk the weighted
variations in order, accumulating weight/100000 onto the running sum,
and select the first entry the bucket value falls under. f64 sums are
modelled over Rat. -/
def rolloutLoop (bucket : Rat) : Rat → List WeightedVariation → Except Error Int
  | _, [] => .error .InvalidRollout
  | sum, wv :: rest =>
    match wv.weight with
    | none => .error .InvalidRollout
    | some weight =>
      if bucket < sum + (weight : Rat) / 100000 then
        match wv.variation with
        | some variation => .ok variation
        | none => .error .InvalidRollout
      else rolloutLoop bucket (sum + (weight : Rat) / 100000) rest

/-- Evaluation::rollout from src/evaluator.rs: an absent or empty
variation list is InvalidRollout, otherwise the walk runs from sum 0. -/
def Evaluation.rollout (bucket : Rat) (r : Rollout) : Except Error Int :=
  match r.variations with
  | some vs => if vs.isEmpty then .error .InvalidRollout else rolloutLoop bucket 0 vs
  | none => .error .InvalidRollout

/-- Evaluation::fallthrough from src/evaluator.rs: a fixed variation
wins; otherwise the rollout runs; neither present is EmptyFallthrough. -/
def Evaluation.fallthrough (bucket : Rat) (flag : FeatureFlagState) : Except Error Int :=
  match flag.fallthrough.variation with
  | some variation => .ok variation
  | none =>
    match flag.fallthrough.rollout with
    | some r => Evaluation.rollout bucket r
    | none => .error .EmptyFallthrough

/-- Evaluation::prerequisites from src/evaluator.rs, parametrized by
the recursive evaluation of a prerequisite flag (the fuelled index at
one level less); the recursion returning none models running out of
fuel. Entries are checked in declared order: a missing key or variation
is InvalidPrerequisite, a key absent from the store is FlagNotFound, a
referenced flag that is off is FlagOff, and a recursively computed
index (cast usize to i64) differing from the expected variation is
PrerequisiteFailed. -/
def Evaluation.prerequisites (recurse : FeatureFlagState → Option (Except Error Nat))
    (store : String → Option FeatureFlagState) : List Prerequisite → Option (Except Error Unit)
  | [] => some (.ok ())
  | p :: rest =>
    match p.key, p.variation with
    | some key, some expected =>
      match store key with
      | none => some (.error .FlagNotFound)
      | some flag =>
        if flag.«on» = false then some (.error .FlagOff)
        else
          match recurse flag with
          | none => none
          | some (.error e) => some (.error e)
          | some (.ok i) =>
            if i64OfUsize i ≠ expected then some (.error .PrerequisiteFailed)
            else Evaluation.prerequisites recurse store rest
    | _, _ => some (.error .InvalidPrerequisite)

/-- Evaluation::index from src/evaluator.rs, with explicit fuel for the
recursion through prerequisite flags (the source recurses unboundedly)
and the SHA-1/f64 bucket computation abstracted as a parameter mapping
a flag and a user key to a bucket value: an off flag yields
off_variation; a failed prerequisite check yields off_variation; then
targets, rules and fallthrough run in order, their errors propagating,
their indexes cast to usize. -/
def Evaluation.index (bucket : FeatureFlagState → String → Rat)
    (store : String → Option FeatureFlagState) (user : String) :
    Nat → FeatureFlagState → Option (Except Error Nat)
  | 0, _ => none
  | fuel + 1, flag =>
    if flag.«on» = false then some (.ok flag.off_variation)
    else
      match Evaluation.prerequisites (fun f => Evaluation.index bucket store user fuel f)
          store flag.prerequisites with
      | none => none
      | some (.error _) => some (.ok flag.off_variation)
      | some (.ok ()) =>
        match Evaluation.targets user flag.targets with
        | .error e => some (.error e)
        | .ok (some v) => some (.ok (usizeOfI64 v))
        | .ok none =>
          match Evaluation.rules flag with
          | .error e => some (.error e)
          | .ok (some v) => some (.ok (usizeOfI64 v))
          | .ok none =>
            match Evaluation.fallthrough (bucket flag user) flag with
            | .error e => some (.error e)
            | .ok v => some (.ok (usizeOfI64 v))

/-- Evaluation::run from src/evaluator.rs: the computed index selects a
variation value, out-of-range indexes are IndexOutOfRange. -/
def Evaluation.run (bucket : FeatureFlagState → String → Rat)
    (store : String → Option FeatureFlagState) (user : String) (fuel : Nat)
    (flag : FeatureFlagState) : Option (Except Error JsonValue) :=
  match Evaluation.index bucket store user fuel flag with
  | none => none
  | some (.error e) => some (.error e)
  | some (.ok i) =>
    match flag.variations.get? i with
    | some v => some (.ok v)
    | none => some (.error .IndexOutOfRange)

/-- C7: a flag that is off evaluates to its off_variation for every
user, every store, every bucket assignment and every fuel budget,
regardless of its prerequisites, targets, rules, fallthrough and
rollout contents. -/
theorem off_flag_gives_off_variation (bucket : FeatureFlagState → String → Rat)
    (store : String → Option FeatureFlagState) (user : String) (fuel : Nat)
    (flag : FeatureFlagState) (hoff : flag.«on» = false) :
    Evaluation.index bucket store user (fuel + 1) flag = some (.ok flag.off_variation) := by
  simp [Evaluation.index, hoff]

/-- An off flag with populated targets, rules, prerequisites and
rollout, to exercise the off short-circuit at a concrete input. -/
def offLoadedFlag : FeatureFlagState :=
  { flagV 3 with
    «on» := false
    off_variation := 5
    prerequisites := [({ key := none, variation := none } : Prerequisite)]
    targets := [({ values := some ["u"], variation := some 1 } : Target)]
    rules := [({} : Rule)]
    fallthrough := { variation := none, rollout := none } }

/-- Witness for C7: the concrete off flag evaluates to index 5. -/
theorem off_flag_gives_off_variation_witness :
    Evaluation.index (fun _ _ => 0) (fun _ => none) "u" 1 offLoadedFlag = some (.ok 5) :=
  off_flag_gives_off_variation (fun _ _ => 0) (fun _ => none) "u" 0 offLoadedFlag rfl

/-- A prerequisite entry is bad for a given store and a given recursive
evaluation when it is malformed (missing key or variation), or its key
is absent from the store, or the referenced flag is off, or the
referenced flag's recursively computed index (cast to i64) differs from
the required variation. -/
def badPrereq (recurse : FeatureFlagState → Option (Except Error Nat))
    (store : String → Option FeatureFlagState) (p : Prerequisite) : Prop :=
  p.key = none ∨ p.variation = none
  ∨ (∃ k, p.key = some k ∧ store k = none)
  ∨ (∃ k f, p.key = some k ∧ store k = some f ∧ f.«on» = false)
  ∨ (∃ k f i expected, p.key = some k ∧ p.variation = some expected ∧ store k = some f
      ∧ f.«on» = true ∧ recurse f = some (.ok i) ∧ i64OfUsize i ≠ expected)

theorem prerequisites_not_ok_of_bad (recurse : FeatureFlagState → Option (Except Error Nat))
    (store : String → Option FeatureFlagState) (l : List Prerequisite) (p : Prerequisite)
    (hmem : p ∈ l) (hbad : badPrereq recurse store p) :
    Evaluation.prerequisites recurse store l ≠ some (.ok ()) := by
  induction l with
  | nil => cases hmem
  | cons q rest ih =>
    rcases List.mem_cons.mp hmem with hpq | hrest
    · subst hpq
      rcases hbad with hk | hv | ⟨k, hk, hs⟩ | ⟨k, f, hk, hs, hoff⟩
        | ⟨k, f, i, expected, hk, hv, hs, hon, hrec, hne⟩
      · simp [Evaluation.prerequisites, hk]
      · cases hkey : p.key with
        | none => simp [Evaluation.prerequisites, hkey]
        | some k => simp [Evaluation.prerequisites, hkey, hv]
      · cases hvar : p.variation with
        | none => simp [Evaluation.prerequisites, hk, hvar]
        | some expected => simp [Evaluation.prerequisites, hk, hvar, hs]
      · cases hvar : p.variation with
        | none => simp [Evaluation.prerequisites, hk, hvar]
        | some expected => simp [Evaluation.prerequisites, hk, hvar, hs, hoff]
      · simp [Evaluation.prerequisites, hk, hv, hs, hon, hrec, hne]
    · cases hkey : q.key with
      | none => simp [Evaluation.prerequisites, hkey]
      | some k =>
        cases hvar : q.variation with
        | none => simp [Evaluation.prerequisites, hkey, hvar]
        | some expected =>
          cases hs : store k with
          | none => simp [Evaluation.prerequisites, hkey, hvar, hs]
          | some f =>
            by_cases hon : f.«on» = false
            · simp [Evaluation.prerequisites, hkey, hvar, hs, hon]
            · cases hrec : recurse f with
              | none => simp [Evaluation.prerequisites, hkey, hvar, hs, hon, hrec]
              | some res =>
                cases res with
                | error e => simp [Evaluation.prerequisites, hkey, hvar, hs, hon, hrec]
                | ok i =>
                  by_cases hne : i64OfUsize i ≠ (expected : Int)
                  · simp [Evaluation.prerequisites, hkey, hvar, hs, hon, hrec, hne]
                  · simpa [Evaluation.prerequisites, hkey, hvar, hs, hon, hrec, hne]
                      using ih hrest

/-- C6: when a flag is on and any of its prerequisite entries, in
declared order, is malformed, references a missing flag, references an
off flag, or references a flag whose recursively computed index differs
from the required variation, the evaluation's index result is the
flag's off_variation wrapped in ok — no error reaches the caller. The
third hypothesis only rules out fuel exhaustion inside the prerequisite
walk, a fuel-model artifact with no counterpart in the source. -/
theorem prereq_failure_gives_off_variation (bucket : FeatureFlagState → String → Rat)
    (store : String → Option FeatureFlagState) (user : String) (fuel : Nat)
    (flag : FeatureFlagState) (hon : flag.«on» = true)
    (hbad : ∃ p ∈ flag.prerequisites,
      badPrereq (fun f => Evaluation.index bucket store user fuel f) store p)
    (hfuel : Evaluation.prerequisites (fun f => Evaluation.index bucket store user fuel f)
      store flag.prerequisites ≠ none) :
    Evaluation.index bucket store user (fuel + 1) flag = some (.ok flag.off_variation) := by
  obtain ⟨p, hmem, hbadp⟩ := hbad
  have hnotok := prerequisites_not_ok_of_bad _ store flag.prerequisites p hmem hbadp
  cases hpre : Evaluation.prerequisites (fun f => Evaluation.index bucket store user fuel f)
      store flag.prerequisites with
  | none => exact absurd hpre hfuel
  | some res =>
    cases res with
    | error e => simp [Evaluation.index, hon, hpre]
    | ok u => exact absurd hpre (by simpa using hnotok)

/-- An on flag whose single prerequisite entry is malformed. -/
def badPrereqFlag : FeatureFlagState :=
  { flagV 3 with
    «on» := true
    off_variation := 7
    prerequisites := [({ key := none, variation := none } : Prerequisite)] }

/-- Witness for C6: the concrete flag with a malformed prerequisite
entry evaluates to its off_variation 7 with no error. -/
theorem prereq_failure_gives_off_variation_witness :
    Evaluation.index (fun _ _ => 0) (fun _ => none) "u" 1 badPrereqFlag = some (.ok 7) :=
  prereq_failure_gives_off_variation (fun _ _ => 0) (fun _ => none) "u" 0 badPrereqFlag rfl
    ⟨{ key := none, variation := none }, by simp [badPrereqFlag], Or.inl rfl⟩
    (fun h => Option.noConfusion h)

theorem prerequisites_mono (rec1 rec2 : FeatureFlagState → Option (Except Error Nat))
    (store : String → Option FeatureFlagState)
    (hrec : ∀ f r, rec1 f = some r → rec2 f = some r)
    (l : List Prerequisite) (x : Except Error Unit)
    (h : Evaluation.prerequisites rec1 store l = some x) :
    Evaluation.prerequisites rec2 store l = some x := by
  induction l with
  | nil => simpa [Evaluation.prerequisites] using h
  | cons q rest ih =>
    cases hkey : q.key with
    | none => simpa [Evaluation.prerequisites, hkey] using h
    | some k =>
      cases hvar : q.variation with
      | none => simpa [Evaluation.prerequisites, hkey, hvar] using h
      | some expected =>
        cases hs : store k with
        | none => simpa [Evaluation.prerequisites, hkey, hvar, hs] using h
        | some f =>
          by_cases hon : f.«on» = false
          · simpa [Evaluation.prerequisites, hkey, hvar, hs, hon] using h
          · cases hr1 : rec1 f with
            | none => simp [Evaluation.prerequisites, hkey, hvar, hs, hon, hr1] at h
            | some res =>
              have hr2 := hrec f res hr1
              cases res with
              | error e =>
                simp [Evaluation.prerequisites, hkey, hvar, hs, hon, hr1] at h
                simp [Evaluation.prerequisites, hkey, hvar, hs, hon, hr2, h]
              | ok i =>
                by_cases hne : i64OfUsize i = (expected : Int)
                · have h2 : Evaluation.prerequisites rec1 store rest = some x := by
                    simpa [Evaluation.prerequisites, hkey, hvar, hs, hon, hr1, hne] using h
                  simpa [Evaluation.prerequisites, hkey, hvar, hs, hon, hr2, hne] using ih h2
                · simp [Evaluation.prerequisites, hkey, hvar, hs, hon, hr1, hne] at h
                  simp [Evaluation.prerequisites, hkey, hvar, hs, hon, hr2, hne, h]

/-- Unfolding equation for the fuelled index at a successor, kept as a
rewrite rule so that inner recursive occurrences stay folded. -/
theorem Evaluation.index_succ (bucket : FeatureFlagState → String → Rat)
    (store : String → Option FeatureFlagState) (user : String) (fuel : Nat)
    (flag : FeatureFlagState) :
    Evaluation.index bucket store user (fuel + 1) flag =
      (if flag.«on» = false then some (.ok flag.off_variation)
      else
        match Evaluation.prerequisites (fun f => Evaluation.index bucket store user fuel f)
            store flag.prerequisites with
        | none => none
        | some (.error _) => some (.ok flag.off_variation)
        | some (.ok ()) =>
          match Evaluation.targets user flag.targets with
          | .error e => some (.error e)
          | .ok (some v) => some (.ok (usizeOfI64 v))
          | .ok none =>
            match Evaluation.rules flag with
            | .error e => some (.error e)
            | .ok (some v) => some (.ok (usizeOfI64 v))
            | .ok none =>
              match Evaluation.fallthrough (bucket flag user) flag with
              | .error e => some (.error e)
              | .ok v => some (.ok (usizeOfI64 v))) := rfl

theorem index_mono_succ (bucket : FeatureFlagState → String → Rat)
    (store : String → Option FeatureFlagState) (user : String) (fuel : Nat)
    (flag : FeatureFlagState) (r : Except Error Nat)
    (h : Evaluation.index bucket store user fuel flag = some r) :
    Evaluation.index bucket store user (fuel + 1) flag = some r := by
  induction fuel generalizing flag r with
  | zero => simp [Evaluation.index] at h
  | succ n ih =>
    rw [Evaluation.index_succ] at h ⊢
    by_cases hon : flag.«on» = false
    · rw [if_pos hon] at h ⊢
      exact h
    · rw [if_neg hon] at h ⊢
      cases hpre : Evaluation.prerequisites (fun f => Evaluation.index bucket store user n f)
          store flag.prerequisites with
      | none =>
        rw [hpre] at h
        simp at h
      | some res =>
        have hpre2 : Evaluation.prerequisites
            (fun f => Evaluation.index bucket store user (n + 1) f) store flag.prerequisites
            = some res :=
          prerequisites_mono _ _ store (fun f r hf => ih f r hf) flag.prerequisites res hpre
        rw [hpre] at h
        rw [hpre2]
        exact h

theorem index_mono (bucket : FeatureFlagState → String → Rat)
    (store : String → Option FeatureFlagState) (user : String) (f1 f2 : Nat)
    (flag : FeatureFlagState) (r : Except Error Nat) (hle : f1 ≤ f2)
    (h : Evaluation.index bucket store user f1 flag = some r) :
    Evaluation.index bucket store user f2 flag = some r := by
  induction f2 with
  | zero =>
    have : f1 = 0 := Nat.le_zero.mp hle
    subst this
    exact h
  | succ n ih =>
    rcases Nat.lt_or_ge f1 (n + 1) with hlt | hge
    · exact index_mono_succ bucket store user n flag r (ih (Nat.lt_succ_iff.mp hlt))
    · have : f1 = n + 1 := Nat.le_antisymm hle hge
      subst this
      exact h

theorem prerequisites_total (recurse : FeatureFlagState → Option (Except Error Nat))
    (store : String → Option FeatureFlagState) (l : List Prerequisite)
    (hrec : ∀ p ∈ l, ∀ k f, p.key = some k → store k = some f → recurse f ≠ none) :
    Evaluation.prerequisites recurse store l ≠ none := by
  induction l with
  | nil => simp [Evaluation.prerequisites]
  | cons q rest ih =>
    cases hkey : q.key with
    | none => simp [Evaluation.prerequisites, hkey]
    | some k =>
      cases hvar : q.variation with
      | none => simp [Evaluation.prerequisites, hkey, hvar]
      | some expected =>
        cases hs : store k with
        | none => simp [Evaluation.prerequisites, hkey, hvar, hs]
        | some f =>
          by_cases hon : f.«on» = false
          · simp [Evaluation.prerequisites, hkey, hvar, hs, hon]
          · cases hr : recurse f with
            | none => exact absurd hr (hrec q (List.mem_cons_self q rest) k f hkey hs)
            | some res =>
              cases res with
              | error e => simp [Evaluation.prerequisites, hkey, hvar, hs, hon, hr]
              | ok i =>
                by_cases hne : i64OfUsize i = (expected : Int)
                · have ih2 := ih (fun p hp => hrec p (List.mem_cons_of_mem q hp))
                  simpa [Evaluation.prerequisites, hkey, hvar, hs, hon, hr, hne] using ih2
                · simp [Evaluation.prerequisites, hkey, hvar, hs, hon, hr, hne]

theorem index_total_of_prerequisites_total (bucket : FeatureFlagState → String → Rat)
    (store : String → Option FeatureFlagState) (user : String) (fuel : Nat)
    (flag : FeatureFlagState)
    (hpre : Evaluation.prerequisites (fun f => Evaluation.index bucket store user fuel f)
      store flag.prerequisites ≠ none) :
    Evaluation.index bucket store user (fuel + 1) flag ≠ none := by
  by_cases hon : flag.«on» = false
  · simp [Evaluation.index, hon]
  · cases hp : Evaluation.prerequisites (fun f => Evaluation.index bucket store user fuel f)
        store flag.prerequisites with
    | none => exact absurd hp hpre
    | some res =>
      cases res with
      | error e => simp [Evaluation.index, hon, hp]
      | ok u =>
        cases u
        cases ht : Evaluation.targets user flag.targets with
        | error e => simp [Evaluation.index, hon, hp, ht]
        | ok o1 =>
          cases o1 with
          | some v => simp [Evaluation.index, hon, hp, ht]
          | none =>
            cases hr : Evaluation.rules flag with
            | error e => simp [Evaluation.index, hon, hp, ht, hr]
            | ok o2 =>
              cases o2 with
              | some v => simp [Evaluation.index, hon, hp, ht, hr]
              | none =>
                cases hf : Evaluation.fallthrough (bucket flag user) flag with
                | error e => simp [Evaluation.index, hon, hp, ht, hr, hf]
                | ok v => simp [Evaluation.index, hon, hp, ht, hr, hf]

/-- C9: when the prerequisite references between flags present in the
store admit a rank function that strictly decreases along every edge —
the standard witness of acyclicity of a finite reference graph — the
fuelled evaluation of any stored flag, for every user and every bucket
assignment, completes within fuel rank + 1: its value is not the
fuel-exhaustion marker. The source has no guard against cyclic graphs,
so no theorem is offered without the acyclicity hypothesis. -/
theorem index_terminates_on_acyclic_store (bucket : FeatureFlagState → String → Rat)
    (store : String → Option FeatureFlagState) (user : String) (rank : String → Nat)
    (hrank : ∀ k f, store k = some f → ∀ p ∈ f.prerequisites,
      ∀ k2 f2, p.key = some k2 → store k2 = some f2 → rank k2 < rank k) :
    ∀ k f, store k = some f →
      (Evaluation.index bucket store user (rank k + 1) f).isSome := by
  suffices H : ∀ r k f, rank k = r → store k = some f →
      Evaluation.index bucket store user (r + 1) f ≠ none by
    intro k f hk
    rw [Option.isSome_iff_ne_none]
    exact H (rank k) k f rfl hk
  intro r
  induction r using Nat.strong_induction_on with
  | _ r ih =>
    intro k f hr hk
    apply index_total_of_prerequisites_total
    apply prerequisites_total
    intro p hp k2 f2 hk2 hs2
    have hlt : rank k2 < r := hr ▸ hrank k f hk p hp k2 f2 hk2 hs2
    have h2 := ih (rank k2) hlt k2 f2 rfl hs2
    intro hnone
    cases hcase : Evaluation.index bucket store user (rank k2 + 1) f2 with
    | none => exact h2 hcase
    | some res =>
      have := index_mono bucket store user (rank k2 + 1) r f2 res hlt hcase
      exact Option.noConfusion (this ▸ hnone)

/-- A store holding a single flag "a" with no prerequisites. -/
def storeSingleA : String → Option FeatureFlagState :=
  fun k => if k = "a" then some offLoadedFlag else none

/-- Witness for C9: on the one-flag store with the constant-zero rank
(vacuously decreasing since the flag has no prerequisites), evaluation
of "a" completes within fuel 1. -/
theorem index_terminates_on_acyclic_store_witness :
    (Evaluation.index (fun _ _ => 0) storeSingleA "u" 1 offLoadedFlag).isSome := by
  have hrank : ∀ k f, storeSingleA k = some f → ∀ p ∈ f.prerequisites,
      ∀ k2 f2, p.key = some k2 → storeSingleA k2 = some f2 → (fun _ => 0) k2 < (fun _ => 0) k := by
    intro k f hk p hp k2 f2 hk2 hs2
    by_cases hka : k = "a"
    · subst hka
      rw [show storeSingleA "a" = some offLoadedFlag from rfl] at hk
      injection hk with hk
      subst hk
      simp [offLoadedFlag, flagV] at hp
      subst hp
      simp at hk2
    · simp [storeSingleA, hka] at hk
  exact index_terminates_on_acyclic_store (fun _ _ => 0) storeSingleA "u" (fun _ => 0) hrank
    "a" offLoadedFlag (by simp [storeSingleA])

/-- Cumulative sum, after k entries, of the rollout walk: the first k
weights each scaled by 1/100000 (entries are assumed to carry weights;
getD 0 is a harmless default under that hypothesis). -/
def cumulativeWeight (vs : List WeightedVariation) (k : Nat) : Rat :=
  ((vs.take k).map (fun wv => ((wv.weight.getD 0 : Nat) : Rat) / 100000)).sum

theorem cumulativeWeight_zero (vs : List WeightedVariation) : cumulativeWeight vs 0 = 0 := by
  simp [cumulativeWeight]

theorem cumulativeWeight_cons (wv : WeightedVariation) (rest : List WeightedVariation) (k : Nat) :
    cumulativeWeight (wv :: rest) (k + 1)
      = ((wv.weight.getD 0 : Nat) : Rat) / 100000 + cumulativeWeight rest k := by
  simp [cumulativeWeight]

theorem cumulativeWeight_nonneg (vs : List WeightedVariation) (k : Nat) :
    0 ≤ cumulativeWeight vs k := by
  apply List.sum_nonneg
  intro x hx
  obtain ⟨wv, _, hw⟩ := List.mem_map.mp hx
  rw [← hw]
  positivity

theorem rolloutLoop_select (bucket : Rat) (vs : List WeightedVariation) :
    ∀ (s : Rat) (i : Nat) (h : i < vs.length),
    (∀ wv ∈ vs, wv.weight.isSome) →
    bucket < s + cumulativeWeight vs (i + 1) →
    (∀ j, j < i → ¬ bucket < s + cumulativeWeight vs (j + 1)) →
    rolloutLoop bucket s vs =
      (match (vs.get ⟨i, h⟩).variation with
       | some v => .ok v
       | none => .error .InvalidRollout) := by
  induction vs with
  | nil => intro s i h; exact absurd h (by simp)
  | cons wv rest ih =>
    intro s i h hall hlt hnot
    obtain ⟨w, hw⟩ := Option.isSome_iff_exists.mp (hall wv (List.mem_cons_self wv rest))
    cases i with
    | zero =>
      have hlt0 : bucket < s + (w : Rat) / 100000 := by
        have := hlt
        rw [cumulativeWeight_cons, cumulativeWeight_zero, hw] at this
        simpa using this
      simp [rolloutLoop, hw, hlt0]
    | succ i2 =>
      have hge0 : ¬ bucket < s + (w : Rat) / 100000 := by
        have := hnot 0 (Nat.succ_pos i2)
        rw [cumulativeWeight_cons, cumulativeWeight_zero, hw] at this
        simpa using this
      have h2 : i2 < rest.length := Nat.succ_lt_succ_iff.mp (by simpa using h)
      have step : rolloutLoop bucket s (wv :: rest)
          = rolloutLoop bucket (s + (w : Rat) / 100000) rest := by
        simp [rolloutLoop, hw, hge0]
      rw [step]
      have hlt2 : bucket < (s + (w : Rat) / 100000) + cumulativeWeight rest (i2 + 1) := by
        have := hlt
        rw [cumulativeWeight_cons, hw] at this
        simpa [add_assoc] using this
      have hnot2 : ∀ j, j < i2 → ¬ bucket < (s + (w : Rat) / 100000)
          + cumulativeWeight rest (j + 1) := by
        intro j hj
        have := hnot (j + 1) (Nat.succ_lt_succ hj)
        rw [cumulativeWeight_cons, hw] at this
        simpa [add_assoc] using this
      have := ih (s + (w : Rat) / 100000) i2 h2 (fun x hx => hall x (List.mem_cons_of_mem wv hx))
        hlt2 hnot2
      simpa using this

theorem rolloutLoop_exhaust (bucket : Rat) (vs : List WeightedVariation) :
    ∀ (s : Rat),
    (∀ wv ∈ vs, wv.weight.isSome) →
    ¬ bucket < s + cumulativeWeight vs vs.length →
    rolloutLoop bucket s vs = .error .InvalidRollout := by
  induction vs with
  | nil => intro s _ _; simp [rolloutLoop]
  | cons wv rest ih =>
    intro s hall hnot
    obtain ⟨w, hw⟩ := Option.isSome_iff_exists.mp (hall wv (List.mem_cons_self wv rest))
    have hfull : s + cumulativeWeight (wv :: rest) (wv :: rest).length
        = (s + (w : Rat) / 100000) + cumulativeWeight rest rest.length := by
      rw [List.length_cons, cumulativeWeight_cons, hw]
      simp [add_assoc]
    have hge0 : ¬ bucket < s + (w : Rat) / 100000 := by
      intro hcon
      apply hnot
      rw [hfull]
      calc bucket < s + (w : Rat) / 100000 := hcon
        _ ≤ (s + (w : Rat) / 100000) + cumulativeWeight rest rest.length := by
            simpa using cumulativeWeight_nonneg rest rest.length
    have step : rolloutLoop bucket s (wv :: rest)
        = rolloutLoop bucket (s + (w : Rat) / 100000) rest := by
      simp [rolloutLoop, hw, hge0]
    rw [step]
    apply ih (s + (w : Rat) / 100000) (fun x hx => hall x (List.mem_cons_of_mem wv hx))
    rw [← hfull]
    exact hnot

/-- C3: the rollout reached through fallthrough (last conjunct) fails
with InvalidRollout when its variation list is absent or empty; when
all entries carry weights, the walk in declared order selects the first
entry i with bucket strictly below the cumulative sum of the first i+1
scaled weights, yielding that entry's variation; and when the bucket
never falls below the final cumulative sum the walk exhausts with
InvalidRollout. -/
theorem rollout_fallthrough_walk :
    (∀ (bucket : Rat) (r : Rollout), (r.variations = none ∨ r.variations = some []) →
      Evaluation.rollout bucket r = .error .InvalidRollout)
    ∧ (∀ (bucket : Rat) (vs : List WeightedVariation) (i : Nat) (h : i < vs.length) (v : Int),
      (∀ wv ∈ vs, wv.weight.isSome) →
      bucket < cumulativeWeight vs (i + 1) →
      (∀ j, j < i → ¬ bucket < cumulativeWeight vs (j + 1)) →
      (vs.get ⟨i, h⟩).variation = some v →
      Evaluation.rollout bucket ⟨some vs⟩ = .ok v)
    ∧ (∀ (bucket : Rat) (vs : List WeightedVariation),
      (∀ wv ∈ vs, wv.weight.isSome) →
      ¬ bucket < cumulativeWeight vs vs.length →
      Evaluation.rollout bucket ⟨some vs⟩ = .error .InvalidRollout)
    ∧ (∀ (bucket : Rat) (flag : FeatureFlagState) (r : Rollout),
      flag.fallthrough.variation = none → flag.fallthrough.rollout = some r →
      Evaluation.fallthrough bucket flag = Evaluation.rollout bucket r) := by
  refine ⟨?_, ?_, ?_, ?_⟩
  · intro bucket r hr
    rcases hr with hr | hr <;> simp [Evaluation.rollout, hr]
  · intro bucket vs i h v hall hlt hnot hv
    cases vs with
    | nil => exact absurd h (by simp)
    | cons wv rest =>
      have hsel := rolloutLoop_select bucket (wv :: rest) 0 i h hall
        (by simpa using hlt) (by simpa using hnot)
      simp only [Evaluation.rollout, List.isEmpty_cons, hsel, hv]
      simp
  · intro bucket vs hall hnot
    cases vs with
    | nil => simp [Evaluation.rollout]
    | cons wv rest =>
      have hex := rolloutLoop_exhaust bucket (wv :: rest) 0 hall (by simpa using hnot)
      simp only [Evaluation.rollout, List.isEmpty_cons, hex]
      simp
  · intro bucket flag r hvar hroll
    simp [Evaluation.fallthrough, hvar, hroll]

/-- The rollout used by the fallthrough_rollout unit test in
src/evaluator.rs: a 30 percent / 70 percent split. -/
def rolloutSplit : Rollout :=
  ⟨some [⟨some 0, some 30000⟩, ⟨some 1, some 70000⟩]⟩

/-- An on flag whose fallthrough carries the split rollout and no fixed
variation. -/
def splitFlag : FeatureFlagState :=
  { flagV 0 with fallthrough := { variation := none, rollout := some rolloutSplit } }

/-- Witness for C3 at concrete inputs: an absent variation list fails;
bucket 1/2 on the 30/70 split selects the second entry (variation 1);
bucket 2 exhausts the walk; and the fallthrough of the concrete flag
defers to its rollout. -/
theorem rollout_fallthrough_walk_witness :
    Evaluation.rollout (0 : Rat) ⟨none⟩ = .error .InvalidRollout
    ∧ Evaluation.rollout (1 / 2 : Rat) rolloutSplit = .ok 1
    ∧ Evaluation.rollout (2 : Rat) rolloutSplit = .error .InvalidRollout
    ∧ Evaluation.fallthrough (0 : Rat) splitFlag = Evaluation.rollout (0 : Rat) rolloutSplit := by
  obtain ⟨h1, h2, h3, h4⟩ := rollout_fallthrough_walk
  refine ⟨h1 0 ⟨none⟩ (Or.inl rfl), ?_, ?_, ?_⟩
  · exact h2 (1 / 2) [⟨some 0, some 30000⟩, ⟨some 1, some 70000⟩] 1 (by simp) 1
      (by decide)
      (by norm_num [cumulativeWeight])
      (by
        intro j hj
        have hj0 : j = 0 := by omega
        subst hj0
        norm_num [cumulativeWeight])
      rfl
  · exact h3 2 [⟨some 0, some 30000⟩, ⟨some 1, some 70000⟩] (by decide)
      (by norm_num [cumulativeWeight])
  · exact h4 0 splitFlag rolloutSplit rfl rfl

/-- ReadError from src/consumer.rs, generic over the consumer's own
error type. -/
inductive ReadError (E : Type) where
  | TaskDropped : ReadError E
  | RetryFailed : ReadError E
  | Inner (e : E) : ReadError E
deriving DecidableEq

/-- One item yielded by a source's stream: a decoded message or a
stream/decode error. -/
inductive StreamItem (M : Type) where
  | ok (msg : M) : StreamItem M
  | err : StreamItem M
deriving DecidableEq

/-- How the background task of read_from ended: by exhausting the
4-failure budget, or because the current stream finished (next()
returned None). -/
inductive ExitKind where
  | retryFailed : ExitKind
  | streamEnded : ExitKind
deriving DecidableEq

/-- Outcome of a finished background run: how it exited, the values
sent on the watch channel in order, and how many fresh streams were
requested from the source after the initial one (reconnects). -/
structure RunResult (E : Type) where
  exit : ExitKind
  published : List (Except (ReadError E) Unit)
  reconnects : Nat

/-- The spawned loop inside Consumer::read_from (src/consumer.rs),
translated step by step. streams n is the list of items the n-th
source.stream() call yields; consume is the consumer's consume method;
rest is the unread remainder of the current stream; ns the index of the
next stream to request; failures the consecutive-failure counter; recs
the reconnect count; pub the values sent so far. Fuel bounds the number
of loop iterations (the source loops forever if fed an endless stream);
fuel exhaustion is the value none. The while condition (failures under
4) is checked before each read; an error increments the counter and
requests a fresh stream; a message resets the counter to 0 and feeds
consume, whose Done/Err outcomes are sent on the channel; an exhausted
stream ends the task; leaving the loop sends RetryFailed. -/
def runLoop {M E : Type} (streams : Nat → List (StreamItem M))
    (consume : M → Except E InitState) :
    Nat → List (StreamItem M) → Nat → Nat → Nat → List (Except (ReadError E) Unit) →
    Option (RunResult E)
  | fuel, rest, ns, failures, recs, pub =>
    if 4 ≤ failures then some ⟨.retryFailed, pub ++ [.error .RetryFailed], recs⟩
    else
      match fuel, rest with
      | 0, _ => none
      | _ + 1, [] => some ⟨.streamEnded, pub, recs⟩
      | fuel + 1, .err :: _ =>
        runLoop streams consume fuel (streams ns) (ns + 1) (failures + 1) (recs + 1) pub
      | fuel + 1, .ok m :: rest2 =>
        runLoop streams consume fuel rest2 ns 0 recs
          (match consume m with
           | .error e => pub ++ [.error (.Inner e)]
           | .ok .Done => pub ++ [.ok ()]
           | .ok .Pending => pub)

/-- Consumer::read_from entry: the initial stream is streams 0, the
counters start at zero, nothing is published yet. -/
def readFromRun {M E : Type} (streams : Nat → List (StreamItem M))
    (consume : M → Except E InitState) (fuel : Nat) : Option (RunResult E) :=
  runLoop streams consume fuel (streams 0) 1 0 0 []

/-- What the future returned by read_from resolves to: the waiter
observes the watch channel's published value — the first one, exact
whenever at most one value is ever sent — and TaskDropped when the task
ended without publishing. -/
def resolution {E : Type} (r : RunResult E) : Except (ReadError E) Unit :=
  match r.published with
  | [] => .error .TaskDropped
  | v :: _ => v

theorem runLoop_exit {M E : Type} (streams : Nat → List (StreamItem M))
    (consume : M → Except E InitState) (fuel : Nat) (rest : List (StreamItem M))
    (ns failures recs : Nat) (pub : List (Except (ReadError E) Unit))
    (hf : 4 ≤ failures) :
    runLoop streams consume fuel rest ns failures recs pub
      = some ⟨.retryFailed, pub ++ [.error .RetryFailed], recs⟩ := by
  cases fuel with
  | zero => simp [runLoop, hf]
  | succ n =>
    cases rest with
    | nil => simp [runLoop, hf]
    | cons a tail => cases a <;> simp [runLoop, hf]

theorem runLoop_err_streams {M E : Type} (streams : Nat → List (StreamItem M))
    (consume : M → Except E InitState)
    (hstreams : ∀ n, streams n ≠ [] ∧ ∀ it ∈ streams n, it = .err) :
    ∀ fuel i, i ≤ 4 → 4 - i ≤ fuel →
      runLoop streams consume fuel (streams i) (i + 1) i i []
        = some ⟨.retryFailed, [.error .RetryFailed], 4⟩ := by
  intro fuel
  induction fuel with
  | zero =>
    intro i hle hfuel
    have hi : i = 4 := by omega
    subst hi
    simpa using runLoop_exit streams consume 0 (streams 4) 5 4 4 [] (by omega)
  | succ n ih =>
    intro i hle hfuel
    by_cases hi : i = 4
    · subst hi
      simpa using runLoop_exit streams consume (n + 1) (streams 4) 5 4 4 [] (by omega)
    · have hlt : i < 4 := Nat.lt_of_le_of_ne hle hi
      obtain ⟨hne, hall⟩ := hstreams i
      cases hd : streams i with
      | nil => exact absurd hd hne
      | cons a tail =>
        have ha : a = .err := hall a (hd ▸ List.mem_cons_self a tail)
        subst ha
        rw [show runLoop streams consume (n + 1) (StreamItem.err :: tail) (i + 1) i i []
            = runLoop streams consume n (streams (i + 1)) (i + 2) (i + 1) (i + 1) [] by
          simp [runLoop, Nat.not_le.mpr hlt]]
        exact ih (i + 1) (by omega) (by omega)

/-- C4: first conjunct — against a source every one of whose streams
starts with an error (in particular one that always errors), read_from
runs exactly 4 failure iterations, each requesting a fresh stream from
the source, then leaves the loop and publishes only Err(RetryFailed),
so the returned future resolves to Err(RetryFailed); the reconnect
count in the result is exactly 4. Second conjunct — a successfully
decoded message resets the consecutive-failure counter to 0 before the
loop continues, so only 4 errors with no intervening message reach the
cutoff. -/
theorem read_from_retry_cutoff {M E : Type} (streams : Nat → List (StreamItem M))
    (consume : M → Except E InitState) :
    ((∀ n, streams n ≠ [] ∧ ∀ it ∈ streams n, it = .err) →
      ∀ fuel, 4 ≤ fuel →
        readFromRun streams consume fuel
          = some ⟨.retryFailed, [.error .RetryFailed], 4⟩
        ∧ (readFromRun streams consume fuel).map resolution
          = some (.error .RetryFailed))
    ∧ (∀ fuel rest ns failures recs pub m, failures < 4 →
        runLoop streams consume (fuel + 1) (.ok m :: rest) ns failures recs pub
          = runLoop streams consume fuel rest ns 0 recs
              (match consume m with
               | .error e => pub ++ [.error (.Inner e)]
               | .ok .Done => pub ++ [.ok ()]
               | .ok .Pending => pub)) := by
  constructor
  · intro hstreams fuel hfuel
    have h0 := runLoop_err_streams streams consume hstreams fuel 0 (by omega) (by omega)
    refine ⟨h0, ?_⟩
    rw [show readFromRun streams consume fuel
        = runLoop streams consume fuel (streams 0) 1 0 0 [] from rfl, h0]
    simp [resolution]
  · intro fuel rest ns failures recs pub m hf
    simp [runLoop, Nat.not_le.mpr hf]

/-- A source whose every stream yields a single error. -/
def alwaysErrSource : Nat → List (StreamItem Unit) :=
  fun _ => [.err]

/-- Witness for C4: against the always-erroring source with 4 units of
fuel, read_from exits with RetryFailed, 4 reconnects and the single
published value Err(RetryFailed), to which the future resolves; and a
step on a decoded message concretely resets the failure counter from 3
to 0. -/
theorem read_from_retry_cutoff_witness :
    (readFromRun alwaysErrSource (fun _ => (Except.ok .Pending : Except Unit InitState)) 4
      = some ⟨.retryFailed, [.error .RetryFailed], 4⟩
    ∧ (readFromRun alwaysErrSource (fun _ => (Except.ok .Pending : Except Unit InitState)) 4).map
        resolution = some (.error .RetryFailed))
    ∧ runLoop alwaysErrSource (fun _ => (Except.ok .Pending : Except Unit InitState))
        1 [.ok ()] 1 3 0 []
      = runLoop alwaysErrSource (fun _ => (Except.ok .Pending : Except Unit InitState))
        0 [] 1 0 0 [] := by
  have h := read_from_retry_cutoff alwaysErrSource
    (fun _ => (Except.ok .Pending : Except Unit InitState))
  refine ⟨h.1 (fun n => ⟨by simp [alwaysErrSource], ?_⟩) 4 (by omega), ?_⟩
  · intro it hit
    simpa [alwaysErrSource] using hit
  · exact h.2 0 [] 1 3 0 [] () (by omega)
